import Mathlib

/-
Verification development for the gittr rendering engine
(src/gittr/cli/action.py).

Paths and template texts are modelled as lists of characters (python str).
The jinja2 template engine and the yaml parser are external collaborators of
this repository; they enter the model as explicit function parameters of the
definitions that call them.  Git object paths are slash-normalized (no
leading, trailing or repeated slashes), and the path helpers below model
os.path.basename / os.path.dirname / os.path.join on such paths.
-/

/- Character-list strings modelling python str. -/
abbrev Str : Type := List Char

/- python str.startswith: strStarts pat s is s.startswith(pat). -/
def strStarts : Str → Str → Bool
  | [], _ => true
  | _ :: _, [] => false
  | a :: as, b :: bs => a == b && strStarts as bs

/- python str.endswith: strEnds pat s is s.endswith(pat). -/
def strEnds (pat s : Str) : Bool := strStarts pat.reverse s.reverse

def gitSlash : Str := ".git/".toList

def githubSlash : Str := ".github/".toList

def ghtSuffix : Str := ".ght".toList

def j2Suffix : Str := ".j2".toList

/- jinja2 exception kinds relevant to template loading: templateNotFound is
the jinja2.TemplateNotFound class that both guard rejections and missing
files raise; permissionDenied stands for a lookup-unrelated error kind that
the loader could have used instead, but never does. -/
inductive LoadErr : Type where
  | templateNotFound (msg : Str)
  | permissionDenied (msg : Str)
deriving DecidableEq

namespace RestrictedFileSystemLoader

/- RestrictedFileSystemLoader._ensure_not_unsafe_github: reject a .github/
path unless it ends in .ght or .j2. -/
def ensure_not_unsafe_github (template : Str) : Except LoadErr Unit :=
  if strStarts githubSlash template
      && !(strEnds ghtSuffix template || strEnds j2Suffix template) then
    .error (.templateNotFound template)
  else
    .ok ()

/- RestrictedFileSystemLoader._ensure_not_git: reject any .git/ path. -/
def ensure_not_git (template : Str) : Except LoadErr Unit :=
  if strStarts gitSlash template then .error (.templateNotFound template)
  else .ok ()

/- The only_safe closure inside list_templates: true iff neither guard
raises. -/
def only_safe (template : Str) : Bool :=
  match ensure_not_git template, ensure_not_unsafe_github template with
  | .ok _, .ok _ => true
  | _, _ => false

/- File lookup of the underlying jinja2 FileSystemLoader: the working tree is
an association list from path to raw text. -/
def findFile : List (Str × Str) → Str → Option Str
  | [], _ => none
  | (p, c) :: rest, t => if p = t then some c else findFile rest t

/- RestrictedFileSystemLoader.get_source: run both guards, then fall through
to the base FileSystemLoader, which raises TemplateNotFound when the file is
absent. -/
def get_source (files : List (Str × Str)) (template : Str) : Except LoadErr Str :=
  match ensure_not_unsafe_github template with
  | .error e => .error e
  | .ok _ =>
    match ensure_not_git template with
    | .error e => .error e
    | .ok _ =>
      match findFile files template with
      | some c => .ok c
      | none => .error (.templateNotFound template)

/- RestrictedFileSystemLoader.list_templates: filter the base enumeration
through only_safe. -/
def list_templates (allFiles : List Str) : List Str := allFiles.filter only_safe

end RestrictedFileSystemLoader

/- The spec name for the loader guard predicate of section 4.1. -/
def isEligibleTemplateSource (p : Str) : Bool := RestrictedFileSystemLoader.only_safe p

/- Last path component: os.path.basename on slash-normalized git paths. -/
def basename (p : Str) : Str := (p.reverse.takeWhile (fun c => c != '/')).reverse

/- Leading directory part: os.path.dirname on slash-normalized git paths. -/
def dirname (p : Str) : Str := p.take (p.length - (basename p).length - 1)

/- os.path.join: an absolute second argument replaces the first; otherwise a
separator is inserted unless the first part is empty or already ends in a
slash. -/
def joinPath (d n : Str) : Str :=
  if strStarts ['/'] n then n
  else if d.isEmpty || strEnds ['/'] d then d ++ n
  else d ++ '/' :: n

/- p lies strictly inside the directory q. -/
def isUnder (p q : Str) : Bool := strStarts (q ++ ['/']) p

/- The error raised by the git collaborator when a git command fails:
GitPython wraps a failing git mv in a GitCommandError carrying the failed
move. -/
inductive GitErr : Type where
  | gitCommandError (old new : Str)
deriving DecidableEq

/- itertools.zip_longest with the default fillvalue None: once the left
iterable is exhausted the remaining right elements are padded with none on
the left, and symmetrically. -/
def zipLongest {α : Type} : List α → List α → List (Option α × Option α)
  | [], bs => bs.map (fun b => (none, some b))
  | a :: as, [] => (some a, none) :: zipLongest as []
  | a :: as, b :: bs => (some a, some b) :: zipLongest as bs

/- The enumerate-and-return-first-mismatch loop inside iterable_converged. -/
def firstDiffIdx {α : Type} [DecidableEq α] : Nat → List (Option α × Option α) → Option Nat
  | _, [] => none
  | n, q :: rest => if q.1 ≠ q.2 then some n else firstDiffIdx (n + 1) rest

/- iterable_converged (module level in action.py): (True, None) when the two
iterables agree pointwise under zip_longest, otherwise (False, i) for the
first position i where they differ. -/
def iterable_converged {α : Type} [DecidableEq α] (left right : List α) : Bool × Option Nat :=
  match firstDiffIdx 0 (zipLongest left right) with
  | none => (true, none)
  | some i => (false, some i)

namespace GHT

/- GHT.render_ght_obj_name: strip a trailing ".ght" from the object name,
then render the remainder as a template against the loaded config; the jinja
pass env.from_string(rv).render(self.config) enters as render. -/
def render_ght_obj_name (render : Str → Str) (name : Str) : Str :=
  if strEnds ghtSuffix name then render (name.take (name.length - 4))
  else render name

/- The objs_to_rename list of GHT.render_tree_structure, in traversal order:
entries is the full tree traversal (paths of blobs and trees, with every
ancestor listed before its descendants, as repo.tree().traverse yields
them); kept are exactly the entries whose rendered name differs from the
current name, paired with dirname(path) joined to the new name. -/
def objs_to_rename (render : Str → Str) (entries : List Str) : List (Str × Str) :=
  (entries.filter (fun p => basename p != render_ght_obj_name render (basename p))).map
    (fun p => (p, joinPath (dirname p) (render_ght_obj_name render (basename p))))

/- The successful rename of old to new, seen by one recorded path: the path
itself is renamed, and paths inside the directory old are re-rooted. -/
def movePath (old new : Str) (p : Str) : Str :=
  if p = old then new
  else if strStarts (old ++ ['/']) p then new ++ p.drop old.length
  else p

/- One index.move of old to new: GitPython shells out to git mv, which
refuses an already-existing destination (fatal: destination exists) and
raises GitCommandError, leaving the index unchanged; on success the entry
old and every entry inside the directory old are re-rooted to new.  A
destination naming an existing tracked directory also counts as occupied
here; real git mv would instead move the source inside that directory, a
branch none of the rename plans in this development reaches. -/
def index_move (idx : List Str) (old new : Str) : Except GitErr (List Str) :=
  if idx.any (fun p => p == new || isUnder p new) then
    .error (.gitCommandError old new)
  else
    .ok (idx.map (movePath old new))

/- The move-application loop of GHT.render_tree_structure: a GitCommandError
raised by index.move aborts the loop at the failing move and propagates,
the moves already applied staying applied. -/
def render_tree_structure_go : List (Str × Str) → List Str → List Str × Option GitErr
  | [], idx => (idx, none)
  | mv :: rest, idx =>
    match index_move idx mv.1 mv.2 with
    | .error e => (idx, some e)
    | .ok idx2 => render_tree_structure_go rest idx2

/- GHT.render_tree_structure: compute objs_to_rename, reverse it in place,
then apply each planned move to the staging index in that order; the second
component reports the GitCommandError that aborted the loop, if any. -/
def render_tree_structure (render : Str → Str) (entries : List Str) (index : List Str) :
    List Str × Option GitErr :=
  render_tree_structure_go ((objs_to_rename render entries).reverse) index

/- Sequential application of index_move requiring every move to succeed. -/
def moveMany : List (Str × Str) → List Str → Option (List Str)
  | [], idx => some idx
  | mv :: rest, idx =>
    match index_move idx mv.1 mv.2 with
    | .error _ => none
    | .ok idx2 => moveMany rest idx2

/- Working tree contents together with the staged-path record. -/
structure RepoSt where
  files : List (Str × Str)
  staged : List Str
deriving DecidableEq

/- Overwrite (or create) the file at path p with content c. -/
def setFile : List (Str × Str) → Str → Str → List (Str × Str)
  | [], p, c => [(p, c)]
  | (q, c0) :: rest, p, c =>
    if q = p then (q, c) :: rest else (q, c0) :: setFile rest p c

/- git index.add on one path. -/
def addStaged (idx : List Str) (p : Str) : List Str :=
  if p ∈ idx then idx else idx ++ [p]

/- The selection filter of the render_tree_content list comprehension:
not o.path.startswith(".github/") or o.path.endswith(".ght"). -/
def content_eligible (p : Str) : Bool :=
  !(strStarts githubSlash p) || strEnds ghtSuffix p

/- One iteration of the render_tree_content loop: env.get_template(path),
template.render(config), write the rendered text back, index.add(path).
renderFn maps the loaded source text to rendered text and is partial so as
to model TemplateSyntaxError and TemplateEvalError; none models the raised
exception (from either loading or rendering). -/
def processOne (renderFn : Str → Option Str) (st : RepoSt) (p : Str) : Option RepoSt :=
  match RestrictedFileSystemLoader.get_source st.files p with
  | .error _ => none
  | .ok text =>
    match renderFn text with
    | none => none
    | some rendered => some ⟨setFile st.files p rendered, addStaged st.staged p⟩

/- The for loop of GHT.render_tree_content over the selected paths: a raised
exception aborts the loop at the failing path and propagates, leaving the
mutations already performed in place. -/
def render_tree_content_go (renderFn : Str → Option Str) :
    List Str → RepoSt → RepoSt × Option Str
  | [], st => (st, none)
  | p :: rest, st =>
    match processOne renderFn st p with
    | none => (st, some p)
    | some st1 => render_tree_content_go renderFn rest st1

/- GHT.render_tree_content: select the eligible index blobs, then run the
render-write-stage loop over them. -/
def render_tree_content (renderFn : Str → Option Str) (blobs : List Str) (st : RepoSt) :
    RepoSt × Option Str :=
  render_tree_content_go renderFn (blobs.filter content_eligible) st

/- Sequential application of processOne requiring every step to succeed. -/
def processMany (renderFn : Str → Option Str) : List Str → RepoSt → Option RepoSt
  | [], st => some st
  | p :: rest, st =>
    match processOne renderFn st p with
    | none => none
    | some st1 => processMany renderFn rest st1

/- The loop state of GHT.render_ght_conf: curr_ght_yaml, next_ght_yaml and
the python variable index shifted by one (k = index + 1; python starts at
index = -1, so k starts at 0). -/
structure ConvSt where
  curr : List Str
  next : List Str
  k : Nat
deriving DecidableEq

/- The while loop of GHT.render_ght_conf with explicit fuel: the python loop
is unbounded, so none models a run that has not converged after fuel
iterations.  parse stands for yaml.safe_load over the joined lines, render
for env.from_string(line).render(config).  On convergence the python method
writes back curr_ght_yaml, the working copy of the final iteration.  The
last match arm is unreachable: iterable_converged never returns
(false, none). -/
def render_ght_conf_loop {Cfg : Type} (parse : List Str → Cfg)
    (render : Cfg → Str → Str) : Nat → ConvSt → Option (List Str)
  | 0, _ => none
  | fuel + 1, s =>
    let curr := s.next.take s.k ++ s.curr.drop s.k
    let config := parse curr
    let nxt := curr.map (render config)
    match iterable_converged curr nxt with
    | (true, _) => some curr
    | (false, some i) => render_ght_conf_loop parse render fuel ⟨curr, nxt, i + 1⟩
    | (false, none) => render_ght_conf_loop parse render fuel ⟨curr, nxt, s.k⟩

/- A config document whose two keys render to each other's exact opposite
string on alternating jinja passes (the oscillating document of the spec's
non-termination scenario).  oscRender is the jinja pass for such a document;
oscParse is the yaml parse, irrelevant to the oscillation. -/
def la0 : Str := "a: no".toList

def la1 : Str := "a: yes".toList

def lb0 : Str := "b: yes".toList

def lb1 : Str := "b: no".toList

def oscParse (_ : List Str) : Unit := ()

def oscRender (_ : Unit) (line : Str) : Str :=
  if line = la0 then la1
  else if line = la1 then la0
  else if line = lb0 then lb1
  else if line = lb1 then lb0
  else line

def oscDoc : List Str := [la0, lb0]

/- Initial loop state of render_ght_conf on the oscillating document. -/
def oscS0 : ConvSt := ⟨oscDoc, oscDoc, 0⟩

/- The two states the loop alternates between from the second iteration on. -/
def oscS1 : ConvSt := ⟨[la0, lb0], [la1, lb1], 1⟩

def oscS2 : ConvSt := ⟨[la1, lb0], [la0, lb1], 1⟩

/- Two sibling entries whose rendered names both equal "out". -/
def dupRender (n : Str) : Str :=
  if n = "a".toList then "out".toList
  else if n = "b".toList then "out".toList
  else n

def dupEntries : List Str := ["a.ght".toList, "b.ght".toList]

def dupIdx : List Str := ["a.ght".toList, "b.ght".toList]

/- Same rename plan as dupRender from a different jinja environment. -/
def dupRender2 (n : Str) : Str :=
  if n = "a".toList then "out".toList
  else if n = "b".toList then "out".toList
  else n ++ "z".toList

/- The spec's rename-ordering scenario: a directory .ght rendering to "x"
holding a blob b.ght rendering to "y". -/
def exRender (n : Str) : Str :=
  if n = [] then "x".toList
  else if n = "b".toList then "y".toList
  else n

def exEntries : List Str := [".ght".toList, ".ght/b.ght".toList]

def exIdx : List Str := [".ght/b.ght".toList]

/- A rendered name containing a path separator. -/
def slashRender (n : Str) : Str := if n = "a".toList then "x/y".toList else n

def slashEntries : List Str := ["d/a.ght".toList]

/- A two-file working tree whose second file fails to render. -/
def demoRender (c : Str) : Option Str :=
  if c = "ca".toList then some "ra".toList else none

def demoBlobs : List Str := ["a".toList, "b".toList]

def demoSt : RepoSt :=
  ⟨[("a".toList, "ca".toList), ("b".toList, "cb".toList)], ["a".toList, "b".toList]⟩

/- The state reached after the first entry has been rendered and staged. -/
def demoSt1 : RepoSt :=
  ⟨[("a".toList, "ra".toList), ("b".toList, "cb".toList)], ["a".toList, "b".toList]⟩

/- The object-name computation as the spec phrases it: first strip the
designated template-file suffix when the name ends with it. -/
def specStripGht (name : Str) : Str :=
  if strEnds ghtSuffix name then name.take (name.length - 4) else name

/- A tree whose single entry keeps its name under rendering. -/
def noopEntries : List Str := ["README.md".toList]

/- The working copy and freshly rendered lines of the iteration that starts
from oscS1. -/
def oscW1 : List Str := [la1, lb0]

def oscN1 : List Str := [la0, lb1]

end GHT

/-
General lemmas about the string and path helpers.
-/

theorem strStarts_append_self (a s : Str) : strStarts a (a ++ s) = true := by
  induction a with
  | nil => rfl
  | cons c cs ih => simp [strStarts, ih]

theorem strStarts_git_github (s : Str) : strStarts gitSlash (githubSlash ++ s) = false := rfl

theorem strStarts_slash_eq_false {n : Str} (h : '/' ∉ n) : strStarts ['/'] n = false := by
  cases n with
  | nil => rfl
  | cons c cs =>
    have hne : '/' ≠ c := fun e => h (List.mem_cons.mpr (Or.inl e))
    have hb : ('/' == c) = false := beq_eq_false_iff_ne.mpr hne
    simp [strStarts, hb]

theorem takeWhile_append_slash (n d : Str) (h : '/' ∉ n) :
    (n ++ '/' :: d).takeWhile (fun c => c != '/') = n := by
  induction n with
  | nil => simp [List.takeWhile_cons]
  | cons a as ih =>
    have ha : a ≠ '/' := fun e => h (List.mem_cons.mpr (Or.inl e.symm))
    have htl : '/' ∉ as := fun m => h (List.mem_cons.mpr (Or.inr m))
    have hb : (a != '/') = true := bne_iff_ne.mpr ha
    simp [List.takeWhile_cons, hb, ih htl]

theorem takeWhile_no_slash (n : Str) (h : '/' ∉ n) :
    n.takeWhile (fun c => c != '/') = n := by
  induction n with
  | nil => rfl
  | cons a as ih =>
    have ha : a ≠ '/' := fun e => h (List.mem_cons.mpr (Or.inl e.symm))
    have htl : '/' ∉ as := fun m => h (List.mem_cons.mpr (Or.inr m))
    have hb : (a != '/') = true := bne_iff_ne.mpr ha
    simp [List.takeWhile_cons, hb, ih htl]

theorem basename_append (d n : Str) (h : '/' ∉ n) : basename (d ++ '/' :: n) = n := by
  unfold basename
  have hrev : (d ++ '/' :: n).reverse = n.reverse ++ '/' :: d.reverse := by simp
  rw [hrev, takeWhile_append_slash _ _ (by simpa using h)]
  simp

theorem basename_no_slash (n : Str) (h : '/' ∉ n) : basename n = n := by
  unfold basename
  rw [takeWhile_no_slash _ (by simpa using h)]
  simp

theorem dirname_append (d n : Str) (h : '/' ∉ n) : dirname (d ++ '/' :: n) = d := by
  unfold dirname
  rw [basename_append d n h]
  have hl : (d ++ '/' :: n).length - n.length - 1 = d.length := by
    simp only [List.length_append, List.length_cons]
    omega
  rw [hl]
  exact List.take_left d ('/' :: n)

theorem dirname_no_slash (n : Str) (h : '/' ∉ n) : dirname n = [] := by
  unfold dirname
  rw [basename_no_slash n h]
  simp

theorem dirname_joinPath (d n : Str) (h : '/' ∉ n) (hd : strEnds ['/'] d = false) :
    dirname (joinPath d n) = d := by
  unfold joinPath
  rw [strStarts_slash_eq_false h]
  by_cases hde : d.isEmpty = true
  · have hd0 : d = [] := by simpa using hde
    subst hd0
    simpa using dirname_no_slash n h
  · have hde2 : d.isEmpty = false := by simpa using hde
    simp only [hde2, hd, Bool.or_self, if_neg, Bool.false_eq_true, not_false_iff, ite_false]
    exact dirname_append d n h

/-
Characterizations of the loader guard.
-/

theorem only_safe_eq (t : Str) :
    RestrictedFileSystemLoader.only_safe t =
      (!(strStarts gitSlash t) &&
        (!(strStarts githubSlash t) || strEnds ghtSuffix t || strEnds j2Suffix t)) := by
  unfold RestrictedFileSystemLoader.only_safe RestrictedFileSystemLoader.ensure_not_git
    RestrictedFileSystemLoader.ensure_not_unsafe_github
  cases h1 : strStarts gitSlash t <;> cases h2 : strStarts githubSlash t <;>
    cases h3 : strEnds ghtSuffix t <;> cases h4 : strEnds j2Suffix t <;> rfl

theorem get_source_eq (files : List (Str × Str)) (t : Str) :
    RestrictedFileSystemLoader.get_source files t =
      if strStarts githubSlash t && !(strEnds ghtSuffix t || strEnds j2Suffix t) then
        .error (.templateNotFound t)
      else if strStarts gitSlash t then .error (.templateNotFound t)
      else
        match RestrictedFileSystemLoader.findFile files t with
        | some c => .ok c
        | none => .error (.templateNotFound t) := by
  unfold RestrictedFileSystemLoader.get_source RestrictedFileSystemLoader.ensure_not_git
    RestrictedFileSystemLoader.ensure_not_unsafe_github
  cases h1 : (strStarts githubSlash t && !(strEnds ghtSuffix t || strEnds j2Suffix t)) <;>
    cases h2 : strStarts gitSlash t <;> rfl

/-- Claim C5: the path guard's eligibility predicate returns false for every
path under the version-control metadata directory .git/, returns true for a
path under the automation-metadata directory .github/ exactly when it ends
with one of the designated template suffixes (.ght or .j2), and returns true
for ordinary paths that lie under neither directory; in particular
.git/config is rejected, .github/foo.ght is accepted, .github/foo.txt is
rejected and README.md is accepted. -/
theorem ght_c5_path_guard :
    (∀ s : Str, isEligibleTemplateSource (gitSlash ++ s) = false)
    ∧ (∀ s : Str, isEligibleTemplateSource (githubSlash ++ s) =
        (strEnds ghtSuffix (githubSlash ++ s) || strEnds j2Suffix (githubSlash ++ s)))
    ∧ (∀ p : Str, strStarts gitSlash p = false → strStarts githubSlash p = false →
        isEligibleTemplateSource p = true)
    ∧ (isEligibleTemplateSource ".git/config".toList = false
       ∧ isEligibleTemplateSource ".github/foo.ght".toList = true
       ∧ isEligibleTemplateSource ".github/foo.txt".toList = false
       ∧ isEligibleTemplateSource "README.md".toList = true) := by
  refine ⟨fun s => ?_, fun s => ?_, fun p h1 h2 => ?_, by decide⟩
  · simp [isEligibleTemplateSource, only_safe_eq, strStarts_append_self]
  · simp [isEligibleTemplateSource, only_safe_eq, strStarts_append_self,
      strStarts_git_github]
  · simp [isEligibleTemplateSource, only_safe_eq, h1, h2]

/-- Witness for C5: the general clauses applied to the concrete path
LICENSE, which lies under neither reserved directory. -/
theorem ght_c5_path_guard_witness : isEligibleTemplateSource "LICENSE".toList = true :=
  ght_c5_path_guard.2.2.1 "LICENSE".toList (by decide) (by decide)

/-- Claim C8: a path rejected by the guard fails template loading with the
same TemplateNotFound outcome as a genuinely absent template (never with a
distinct permission-error kind), and bulk enumeration silently filters such
paths out instead of failing. -/
theorem ght_c8_guard_rejection_is_not_found :
    ∀ (files : List (Str × Str)) (t : Str),
    (isEligibleTemplateSource t = false →
      ∃ m, RestrictedFileSystemLoader.get_source files t =
        .error (.templateNotFound m))
    ∧ (isEligibleTemplateSource t = true →
        RestrictedFileSystemLoader.findFile files t = none →
        RestrictedFileSystemLoader.get_source files t =
          .error (.templateNotFound t))
    ∧ (∀ e, RestrictedFileSystemLoader.get_source files t = .error e →
        ∃ m, e = .templateNotFound m)
    ∧ (∀ allFiles : List Str, RestrictedFileSystemLoader.list_templates allFiles =
        allFiles.filter isEligibleTemplateSource) := by
  intro files t
  refine ⟨fun h => ?_, fun h hf => ?_, fun e he => ?_, fun allFiles => rfl⟩
  · rw [isEligibleTemplateSource, only_safe_eq] at h
    rw [get_source_eq]
    by_cases h1 : (strStarts githubSlash t && !(strEnds ghtSuffix t || strEnds j2Suffix t)) = true
    · rw [if_pos h1]
      exact ⟨t, rfl⟩
    · rw [if_neg h1]
      by_cases h2 : strStarts gitSlash t = true
      · rw [if_pos h2]
        exact ⟨t, rfl⟩
      · exfalso
        cases hb : strStarts githubSlash t <;> cases he1 : strEnds ghtSuffix t <;>
          cases he2 : strEnds j2Suffix t <;> cases hg : strStarts gitSlash t <;>
            simp_all
  · rw [isEligibleTemplateSource, only_safe_eq] at h
    rw [get_source_eq]
    have h2 : strStarts gitSlash t = false := by
      cases hg : strStarts gitSlash t
      · rfl
      · rw [hg] at h
        simp at h
    have h1 : (strStarts githubSlash t && !(strEnds ghtSuffix t || strEnds j2Suffix t)) = false := by
      cases hb : strStarts githubSlash t <;> cases he1 : strEnds ghtSuffix t <;>
        cases he2 : strEnds j2Suffix t <;> simp_all
    rw [h1, h2, if_neg (by simp), if_neg (by simp), hf]
  · rw [get_source_eq] at he
    by_cases h1 : (strStarts githubSlash t && !(strEnds ghtSuffix t || strEnds j2Suffix t)) = true
    · rw [if_pos h1] at he
      exact ⟨t, (Except.error.injEq _ _).mp he.symm ▸ rfl⟩
    · rw [if_neg h1] at he
      by_cases h2 : strStarts gitSlash t = true
      · rw [if_pos h2] at he
        exact ⟨t, (Except.error.injEq _ _).mp he.symm ▸ rfl⟩
      · rw [if_neg h2] at he
        cases hf : RestrictedFileSystemLoader.findFile files t <;> rw [hf] at he
        · exact ⟨t, ((Except.error.injEq _ _).mp he.symm) ▸ rfl⟩
        · cases he

/-- Witness for C8: loading the guard-rejected path .git/config from an
empty working tree fails with the TemplateNotFound outcome. -/
theorem ght_c8_guard_rejection_is_not_found_witness :
    ∃ m, RestrictedFileSystemLoader.get_source [] ".git/config".toList =
      .error (.templateNotFound m) :=
  (ght_c8_guard_rejection_is_not_found [] ".git/config".toList).1 (by decide)

/-
Characterization of iterable_converged.
-/

theorem zipLongest_getElem? {α : Type} [DecidableEq α] (l r : List α) (i : Nat) :
    (zipLongest l r)[i]? =
      if l[i]? = none ∧ r[i]? = none then none else some (l[i]?, r[i]?) := by
  induction l generalizing r i with
  | nil =>
    simp only [zipLongest]
    rw [List.getElem?_map]
    cases hr : r[i]? <;> simp [hr]
  | cons a as ih =>
    cases r with
    | nil =>
      cases i with
      | zero => simp [zipLongest]
      | succ j =>
        simp only [zipLongest, List.getElem?_cons_succ]
        rw [ih [] j]
        simp
    | cons b bs =>
      cases i with
      | zero => simp [zipLongest]
      | succ j =>
        simp only [zipLongest, List.getElem?_cons_succ]
        exact ih bs j

theorem zipLongest_pair_eq {α : Type} [DecidableEq α] (l r : List α) (i : Nat) (q : Option α × Option α)
    (h : (zipLongest l r)[i]? = some q) : q = (l[i]?, r[i]?) := by
  rw [zipLongest_getElem?] at h
  by_cases hc : (l[i]? = none ∧ r[i]? = none)
  · rw [if_pos hc] at h
    cases h
  · rw [if_neg hc] at h
    exact (Option.some.inj h).symm

theorem zipLongest_none {α : Type} [DecidableEq α] (l r : List α) (i : Nat)
    (h : (zipLongest l r)[i]? = none) : l[i]? = none ∧ r[i]? = none := by
  rw [zipLongest_getElem?] at h
  by_cases hc : (l[i]? = none ∧ r[i]? = none)
  · exact hc
  · rw [if_neg hc] at h
    cases h

theorem firstDiffIdx_none_iff {α : Type} [DecidableEq α]
    (ps : List (Option α × Option α)) (n : Nat) :
    firstDiffIdx n ps = none ↔ ∀ q ∈ ps, q.1 = q.2 := by
  induction ps generalizing n with
  | nil => simp [firstDiffIdx]
  | cons q rest ih =>
    by_cases hq : q.1 = q.2
    · simp [firstDiffIdx, hq, ih (n + 1)]
    · simp [firstDiffIdx, hq]

theorem firstDiffIdx_some {α : Type} [DecidableEq α]
    (ps : List (Option α × Option α)) (n m : Nat)
    (h : firstDiffIdx n ps = some m) :
    ∃ k, m = n + k ∧ (∃ q, ps[k]? = some q ∧ q.1 ≠ q.2) ∧
      (∀ j, j < k → ∀ q, ps[j]? = some q → q.1 = q.2) := by
  induction ps generalizing n with
  | nil => simp [firstDiffIdx] at h
  | cons q rest ih =>
    by_cases hq : q.1 = q.2
    · rw [firstDiffIdx, if_neg (by simpa using hq)] at h
      obtain ⟨k, hk, ⟨q1, hget, hne⟩, hbef⟩ := ih (n + 1) h
      refine ⟨k + 1, by omega, ⟨q1, by simpa using hget, hne⟩, ?_⟩
      intro j hj q0 hget0
      cases j with
      | zero =>
        have hqq : q = q0 := by simpa using hget0
        exact hqq ▸ hq
      | succ j0 =>
        exact hbef j0 (by omega) q0 (by simpa using hget0)
    · rw [firstDiffIdx, if_pos (by simpa using hq)] at h
      have hnm : n = m := by simpa using h
      refine ⟨0, by omega, ⟨q, by simp, hq⟩, ?_⟩
      intro j hj
      exact absurd hj (Nat.not_lt_zero j)

theorem iterable_converged_fst_iff {α : Type} [DecidableEq α] (l r : List α) :
    (iterable_converged l r).1 = true ↔ ∀ i : Nat, l[i]? = r[i]? := by
  unfold iterable_converged
  cases hfd : firstDiffIdx 0 (zipLongest l r) with
  | none =>
    simp only [true_iff]
    intro i
    have hall := (firstDiffIdx_none_iff (zipLongest l r) 0).mp hfd
    cases hz : (zipLongest l r)[i]? with
    | none =>
      have h2 := zipLongest_none l r i hz
      rw [h2.1, h2.2]
    | some q =>
      have hq := hall q (List.mem_iff_getElem?.mpr ⟨i, hz⟩)
      have he := zipLongest_pair_eq l r i q hz
      rw [he] at hq
      exact hq
  | some k =>
    simp only [Bool.false_eq_true, false_iff, not_forall]
    obtain ⟨k0, hk0, ⟨q, hget, hne⟩, _⟩ := firstDiffIdx_some (zipLongest l r) 0 k hfd
    have he := zipLongest_pair_eq l r k0 q hget
    rw [he] at hne
    exact ⟨k0, hne⟩

theorem iterable_converged_snd_some {α : Type} [DecidableEq α] (l r : List α) (i : Nat)
    (h : (iterable_converged l r).2 = some i) :
    l[i]? ≠ r[i]? ∧ ∀ j, j < i → l[j]? = r[j]? := by
  unfold iterable_converged at h
  cases hfd : firstDiffIdx 0 (zipLongest l r) with
  | none =>
    rw [hfd] at h
    cases h
  | some k =>
    rw [hfd] at h
    have hik : i = k := by
      simpa using h.symm
    subst hik
    obtain ⟨k0, hk0, ⟨q, hget, hne⟩, hbef⟩ := firstDiffIdx_some (zipLongest l r) 0 i hfd
    have hk0i : k0 = i := by omega
    subst hk0i
    have he := zipLongest_pair_eq l r k0 q hget
    rw [he] at hne
    refine ⟨hne, ?_⟩
    intro j hj
    cases hz : (zipLongest l r)[j]? with
    | none =>
      have h2 := zipLongest_none l r j hz
      rw [h2.1, h2.2]
    | some q0 =>
      have hq0 := hbef j hj q0 hz
      have he0 := zipLongest_pair_eq l r j q0 hz
      rw [he0] at hq0
      exact hq0

/-- Claim C4: each iteration of the render_ght_conf loop builds a working
copy from the first frontier+1 lines of the previous rendered pass followed
by the remaining lines of the current document, parses it, renders every
line of it against the parsed mapping, and then takes as the new frontier
the first position at which the working copy and the freshly rendered lines
differ (a length difference counting as a difference at the first
out-of-range position), declaring convergence exactly when no position
differs. -/
theorem ght_c4_convergence_step :
    ∀ {Cfg : Type} (parse : List Str → Cfg) (render : Cfg → Str → Str)
      (fuel : Nat) (s : GHT.ConvSt) (w nxt : List Str),
    w = s.next.take s.k ++ s.curr.drop s.k →
    nxt = w.map (render (parse w)) →
    (((iterable_converged w nxt).1 = true) ↔ ∀ i : Nat, w[i]? = nxt[i]?)
    ∧ (∀ i, (iterable_converged w nxt).2 = some i →
        (w[i]? ≠ nxt[i]? ∧ ∀ j, j < i → w[j]? = nxt[j]?))
    ∧ ((iterable_converged w nxt).1 = true →
        GHT.render_ght_conf_loop parse render (fuel + 1) s = some w)
    ∧ (∀ i, iterable_converged w nxt = (false, some i) →
        GHT.render_ght_conf_loop parse render (fuel + 1) s =
          GHT.render_ght_conf_loop parse render fuel ⟨w, nxt, i + 1⟩) := by
  intro Cfg parse render fuel s w nxt hw hn
  refine ⟨iterable_converged_fst_iff w nxt,
    fun i h => iterable_converged_snd_some w nxt i h, fun h => ?_, fun i h => ?_⟩
  · rcases hic : iterable_converged w nxt with ⟨b, o⟩
    have hb : b = true := by
      rw [hic] at h
      simpa using h
    subst hb
    subst hn
    subst hw
    simp only [GHT.render_ght_conf_loop]
    rw [hic]
  · subst hn
    subst hw
    simp only [GHT.render_ght_conf_loop]
    rw [h]

/-- Witness for C4: the convergence-step theorem applied to the concrete
oscillating state oscS1, whose working copy and rendered lines differ at
position 0, so one loop iteration advances to the state with frontier 0. -/
theorem ght_c4_convergence_step_witness :
    GHT.render_ght_conf_loop GHT.oscParse GHT.oscRender 1 GHT.oscS1 =
      GHT.render_ght_conf_loop GHT.oscParse GHT.oscRender 0 ⟨GHT.oscW1, GHT.oscN1, 1⟩ :=
  (ght_c4_convergence_step GHT.oscParse GHT.oscRender 0 GHT.oscS1 GHT.oscW1 GHT.oscN1
    rfl rfl).2.2.2 0 (by decide)

/-
The oscillating document: the convergence loop cycles between oscS1 and
oscS2 and never converges under any iteration budget.
-/

theorem osc_pair_none : ∀ n : Nat,
    GHT.render_ght_conf_loop GHT.oscParse GHT.oscRender n GHT.oscS1 = none ∧
    GHT.render_ght_conf_loop GHT.oscParse GHT.oscRender n GHT.oscS2 = none
  | 0 => ⟨rfl, rfl⟩
  | n + 1 => ⟨(osc_pair_none n).2, (osc_pair_none n).1⟩

theorem osc_s0_none : ∀ n : Nat,
    GHT.render_ght_conf_loop GHT.oscParse GHT.oscRender n GHT.oscS0 = none
  | 0 => rfl
  | n + 1 => (osc_pair_none n).1

/-- Claim C1 (amended): the render_ght_conf fixed-point loop imposes no
maximum-iteration ceiling and defines no ConvergenceError; on a document
whose two keys render to each other's exact opposite string on alternating
passes, the loop never converges — for every iteration budget n, n
iterations fail to terminate, so the code loops forever instead of
reporting a bounded failure. -/
theorem ght_c1_no_ceiling_loop_diverges (n : Nat) :
    GHT.render_ght_conf_loop GHT.oscParse GHT.oscRender n GHT.oscS0 = none :=
  osc_s0_none n

/-- Counterexample to C1 as stated: on the oscillating two-key document the
convergence loop produces no outcome at any iteration budget whatsoever, so
there is no ceiling within which a ConvergenceError (or any result) is
reported. -/
theorem ght_c1_counterexample :
    ¬ ∃ n : Nat,
      (GHT.render_ght_conf_loop GHT.oscParse GHT.oscRender n GHT.oscS0).isSome = true := by
  rintro ⟨n, hn⟩
  rw [osc_s0_none n] at hn
  cases hn

/-
Failure shape of the move-application loop.
-/

theorem render_tree_structure_go_fail :
    ∀ (moves : List (Str × Str)) (idx idx2 : List Str) (e : GitErr),
    GHT.render_tree_structure_go moves idx = (idx2, some e) →
    ∃ pre mv post, moves = pre ++ mv :: post ∧
      GHT.moveMany pre idx = some idx2 ∧
      GHT.index_move idx2 mv.1 mv.2 = .error e := by
  intro moves
  induction moves with
  | nil =>
    intro idx idx2 e h
    simp [GHT.render_tree_structure_go] at h
  | cons mv rest ih =>
    intro idx idx2 e h
    rw [GHT.render_tree_structure_go] at h
    cases hm : GHT.index_move idx mv.1 mv.2 with
    | error e0 =>
      rw [hm] at h
      have h1 : idx = idx2 := congrArg Prod.fst h
      have h2 : some e0 = some e := congrArg Prod.snd h
      have he : e0 = e := Option.some.inj h2
      subst he
      subst h1
      exact ⟨[], mv, rest, rfl, rfl, hm⟩
    | ok idxn =>
      rw [hm] at h
      obtain ⟨pre, mv2, post, hsplit, hmany, hfail⟩ := ih idxn idx2 e h
      refine ⟨mv :: pre, mv2, post, by rw [hsplit]; rfl, ?_, hfail⟩
      rw [GHT.moveMany, hm]
      exact hmany

/-- Claim C2 (amended): render_tree_structure performs no duplicate-target
pre-validation and raises no DuplicateTargetError: the whole plan is
computed before any move is applied and the application phase is a function
of the precomputed plan alone, but when two distinct plan entries share a
target the moves preceding the collision are applied — mutating the index —
and the colliding move itself then fails inside the git collaborator, whose
destination-exists refusal surfaces as a GitCommandError raised after
mutation has begun, not before any move. -/
theorem ght_c2_no_duplicate_target_check :
    (∀ (r1 r2 : Str → Str) (e1 e2 idx : List Str),
      GHT.objs_to_rename r1 e1 = GHT.objs_to_rename r2 e2 →
      GHT.render_tree_structure r1 e1 idx = GHT.render_tree_structure r2 e2 idx)
    ∧ (∀ (render : Str → Str) (entries idx idx2 : List Str) (e : GitErr),
        GHT.render_tree_structure render entries idx = (idx2, some e) →
        ∃ pre mv post,
          (GHT.objs_to_rename render entries).reverse = pre ++ mv :: post ∧
          GHT.moveMany pre idx = some idx2 ∧
          GHT.index_move idx2 mv.1 mv.2 = .error e)
    ∧ GHT.render_tree_structure GHT.dupRender GHT.dupEntries GHT.dupIdx =
        (["a.ght".toList, "out".toList],
         some (.gitCommandError "a.ght".toList "out".toList)) := by
  refine ⟨?_, ?_, ?_⟩
  · intro r1 r2 e1 e2 idx h
    unfold GHT.render_tree_structure
    rw [h]
  · intro render entries idx idx2 e h
    exact render_tree_structure_go_fail ((GHT.objs_to_rename render entries).reverse)
      idx idx2 e h
  · decide

/-- Counterexample to C2 as stated: the sibling entries a.ght and b.ght both
render to the name out, producing a plan whose two distinct entries share
the target path out; structure rendering nevertheless mutates the staging
index (the move of b.ght to out is applied before the collision aborts the
loop), so no error is reported before any move is applied. -/
theorem ght_c2_counterexample :
    GHT.objs_to_rename GHT.dupRender GHT.dupEntries =
      [("a.ght".toList, "out".toList), ("b.ght".toList, "out".toList)]
    ∧ (GHT.render_tree_structure GHT.dupRender GHT.dupEntries GHT.dupIdx).1 ≠
        GHT.dupIdx := by
  decide

/-- Witness for C2: two different render environments yielding the same plan
yield the same index outcome. -/
theorem ght_c2_no_duplicate_target_check_witness :
    GHT.render_tree_structure GHT.dupRender GHT.dupEntries GHT.dupIdx =
      GHT.render_tree_structure GHT.dupRender2 GHT.dupEntries GHT.dupIdx :=
  ght_c2_no_duplicate_target_check.1 GHT.dupRender GHT.dupRender2 GHT.dupEntries
    GHT.dupEntries GHT.dupIdx (by decide)

/-
Failure shape of the content-rendering loop.
-/

theorem render_tree_content_go_fail (renderFn : Str → Option Str) :
    ∀ (paths : List Str) (st st2 : GHT.RepoSt) (p : Str),
    GHT.render_tree_content_go renderFn paths st = (st2, some p) →
    ∃ pre post, paths = pre ++ p :: post ∧
      GHT.processMany renderFn pre st = some st2 ∧
      GHT.processOne renderFn st2 p = none := by
  intro paths
  induction paths with
  | nil =>
    intro st st2 p h
    simp [GHT.render_tree_content_go] at h
  | cons q rest ih =>
    intro st st2 p h
    rw [GHT.render_tree_content_go] at h
    cases hq : GHT.processOne renderFn st q with
    | none =>
      rw [hq] at h
      have h1 : st = st2 := congrArg Prod.fst h
      have h2 : some q = some p := congrArg Prod.snd h
      have hp : q = p := Option.some.inj h2
      subst hp
      subst h1
      exact ⟨[], rest, rfl, rfl, hq⟩
    | some st1 =>
      rw [hq] at h
      obtain ⟨pre, post, hsplit, hmany, hfail⟩ := ih st1 st2 p h
      refine ⟨q :: pre, post, by rw [hsplit]; rfl, ?_, hfail⟩
      rw [GHT.processMany, hq]
      exact hmany

/-- Claim C3 (amended): when rendering a selected entry fails, the content
pass aborts at that entry and the failure surfaces as a single error
identifying the first failing path — every selected entry before it
rendered successfully — but the writes and staging-index additions already
performed for those earlier entries remain applied: the resulting state is
exactly the successful-prefix application, not the untouched initial
state. -/
theorem ght_c3_content_failure_keeps_prior_writes :
    ∀ (renderFn : Str → Option Str) (blobs : List Str) (st st2 : GHT.RepoSt) (p : Str),
    GHT.render_tree_content renderFn blobs st = (st2, some p) →
    ∃ pre post, blobs.filter GHT.content_eligible = pre ++ p :: post ∧
      GHT.processMany renderFn pre st = some st2 ∧
      GHT.processOne renderFn st2 p = none :=
  fun renderFn blobs st st2 p h =>
    render_tree_content_go_fail renderFn (blobs.filter GHT.content_eligible) st st2 p h

/-- Counterexample to C3 as stated: in a two-file tree whose second file
fails to render, the pass aborts with the failing path b, yet the resulting
state differs from the initial one — the first file's rendered content and
staging record persist, so the pass is not atomic. -/
theorem ght_c3_counterexample :
    GHT.render_tree_content GHT.demoRender GHT.demoBlobs GHT.demoSt =
      (GHT.demoSt1, some "b".toList)
    ∧ GHT.demoSt1 ≠ GHT.demoSt := by
  decide

/-- Witness for C3: the amended theorem applied to the concrete failing
run. -/
theorem ght_c3_content_failure_keeps_prior_writes_witness :
    ∃ pre post,
      GHT.demoBlobs.filter GHT.content_eligible = pre ++ "b".toList :: post ∧
      GHT.processMany GHT.demoRender pre GHT.demoSt = some GHT.demoSt1 ∧
      GHT.processOne GHT.demoRender GHT.demoSt1 "b".toList = none :=
  ght_c3_content_failure_keeps_prior_writes GHT.demoRender GHT.demoBlobs GHT.demoSt
    GHT.demoSt1 "b".toList (by decide)

/-- Claim C6: an entry joins the rename plan exactly when it occurs in the
traversal and its new name — the current name with a trailing .ght stripped
first, then rendered against the config — differs from the current name, in
which case its target is dirname(path) joined with the new name; the name
computation factors through the spec's strip-then-render description, and
when every entry's rendered name equals its current name the plan is empty
and the staging index is left untouched. -/
theorem ght_c6_rename_plan_membership :
    ∀ (render : Str → Str) (entries : List Str) (p q : Str),
    ((p, q) ∈ GHT.objs_to_rename render entries ↔
      (p ∈ entries ∧ GHT.render_ght_obj_name render (basename p) ≠ basename p ∧
       q = joinPath (dirname p) (GHT.render_ght_obj_name render (basename p))))
    ∧ (∀ name : Str, GHT.render_ght_obj_name render name = render (GHT.specStripGht name))
    ∧ ((∀ e ∈ entries, GHT.render_ght_obj_name render (basename e) = basename e) →
        ∀ idx : List Str, GHT.render_tree_structure render entries idx = (idx, none)) := by
  intro render entries p q
  refine ⟨?_, ?_, ?_⟩
  · unfold GHT.objs_to_rename
    simp only [List.mem_map, List.mem_filter]
    constructor
    · rintro ⟨a, ⟨ha, hcond⟩, heq⟩
      injection heq with h1 h2
      subst h1
      exact ⟨ha, (bne_iff_ne.mp hcond).symm, h2.symm⟩
    · rintro ⟨hp, hne, hq⟩
      refine ⟨p, ⟨hp, bne_iff_ne.mpr hne.symm⟩, ?_⟩
      rw [hq]
  · intro name
    unfold GHT.render_ght_obj_name GHT.specStripGht
    by_cases h : strEnds ghtSuffix name = true
    · rw [if_pos h, if_pos h]
    · rw [if_neg h, if_neg h]
  · intro hall idx
    have hfilter : entries.filter
        (fun p0 => basename p0 != GHT.render_ght_obj_name render (basename p0)) = [] := by
      rw [List.filter_eq_nil_iff]
      intro a ha
      simp [hall a ha]
    unfold GHT.render_tree_structure GHT.objs_to_rename
    rw [hfilter]
    rfl

/-- Witness for C6: the no-op entry README.md generates no move, leaving the
index untouched and raising nothing. -/
theorem ght_c6_rename_plan_membership_witness :
    GHT.render_tree_structure (fun n => n) GHT.noopEntries ["README.md".toList] =
      (["README.md".toList], none) :=
  (ght_c6_rename_plan_membership (fun n => n) GHT.noopEntries [] []).2.2 (by decide)
    ["README.md".toList]

/-- Claim C7: when the traversal lists every ancestor before its descendants
(as git's pre-order traversal does), reversing the plan before application
means that in application order no move's source path is an ancestor of a
later move's source path — each descendant is renamed before its ancestor;
in the spec scenario, the blob b.ght inside the directory .ght is moved
first and the final layout is x/y. -/
theorem ght_c7_descendants_renamed_first :
    (∀ (render : Str → Str) (entries : List Str),
      entries.Pairwise (fun p q => isUnder p q = false) →
      ((GHT.objs_to_rename render entries).reverse).Pairwise
        (fun m1 m2 => isUnder m2.1 m1.1 = false))
    ∧ GHT.render_tree_structure GHT.exRender GHT.exEntries GHT.exIdx =
        (["x/y".toList], none) := by
  constructor
  · intro render entries h
    rw [List.pairwise_reverse]
    unfold GHT.objs_to_rename
    rw [List.pairwise_map]
    exact List.Pairwise.sublist (List.filter_sublist entries) h
  · decide

/-- Witness for C7: the spec scenario traversal satisfies the pre-order
hypothesis, so its reversed plan orders the contained blob's move before
its directory's move. -/
theorem ght_c7_descendants_renamed_first_witness :
    ((GHT.objs_to_rename GHT.exRender GHT.exEntries).reverse).Pairwise
      (fun m1 m2 => isUnder m2.1 m1.1 = false) :=
  ght_c7_descendants_renamed_first.1 GHT.exRender GHT.exEntries (by decide)

/-- Claim C10 (amended): every planned move sends the old path to
dirname(old) joined with the rendered leaf name; when the rendered name
contains no path separator (and the old path's dirname does not end in a
slash, which holds for all slash-normalized git paths), the move preserves
the entry's parent directory. -/
theorem ght_c10_parent_preserved_for_slash_free_names :
    ∀ (render : Str → Str) (entries : List Str) (p q : Str),
    (p, q) ∈ GHT.objs_to_rename render entries →
    q = joinPath (dirname p) (GHT.render_ght_obj_name render (basename p))
    ∧ ('/' ∉ GHT.render_ght_obj_name render (basename p) →
        strEnds ['/'] (dirname p) = false →
        dirname q = dirname p) := by
  intro render entries p q hmem
  have hq : q = joinPath (dirname p) (GHT.render_ght_obj_name render (basename p)) := by
    unfold GHT.objs_to_rename at hmem
    simp only [List.mem_map, List.mem_filter] at hmem
    obtain ⟨a, ⟨ha, hcond⟩, heq⟩ := hmem
    injection heq with h1 h2
    subst h1
    exact h2.symm
  refine ⟨hq, fun hns hde => ?_⟩
  rw [hq]
  exact dirname_joinPath (dirname p) _ hns hde

/-- Counterexample to C10 as stated: the entry d/a.ght, whose stripped name
renders to x/y, is planned to move to d/x/y; the new parent d/x differs
from the old parent d, so the rename relocates the entry under a different
parent. -/
theorem ght_c10_counterexample :
    ("d/a.ght".toList, "d/x/y".toList) ∈
      GHT.objs_to_rename GHT.slashRender GHT.slashEntries
    ∧ dirname "d/x/y".toList ≠ dirname "d/a.ght".toList := by
  decide

/-- Witness for C10: the slash-free rename of a.ght to out keeps the (empty)
parent directory. -/
theorem ght_c10_parent_preserved_for_slash_free_names_witness :
    dirname "out".toList = dirname "a.ght".toList :=
  (ght_c10_parent_preserved_for_slash_free_names GHT.dupRender GHT.dupEntries
    "a.ght".toList "out".toList (by decide)).2 (by decide) (by decide)
